import Mathlib

/-!
Verification development for the school-directory-scraper repository
(src/school-admin-scraper.py and src/contactScraper.py).

Strings are modelled as `List Char`. Python's whitespace set is modelled by the
six ASCII whitespace characters recognised by `str.strip()` and `\s`
(space, tab, newline, carriage return, vertical tab, form feed); `.lower()`
is modelled by `Char.toLower` (they agree on ASCII input).
-/

namespace Scraper

/-- ASCII model of Python's whitespace class (`str.strip()` default set, `\s`). -/
def isPySpace (c : Char) : Bool :=
  c = ' ' || c = '\t' || c = '\n' || c = '\r' || c = '\x0b' || c = '\x0c'

/-- Python `s.lower()` on a character list (ASCII). -/
def lowerStr (l : List Char) : List Char :=
  l.map Char.toLower

/-- `n` is a prefix of `h` (character-exact). -/
def isPrefixB : List Char → List Char → Bool
  | [], _ => true
  | _ :: _, [] => false
  | a :: as, b :: bs => a = b && isPrefixB as bs

/-- `n` occurs as a contiguous substring of `h` (Python `n in h` on str). -/
def isInfixB (n : List Char) : List Char → Bool
  | [] => isPrefixB n []
  | c :: t => isPrefixB n (c :: t) || isInfixB n t

/-- Python `needle.lower() in hay.lower()` — case-insensitive containment. -/
def containsCI (needle hay : List Char) : Bool :=
  isInfixB (lowerStr needle) (lowerStr hay)

/-- Remove the trailing run of Python-whitespace characters. -/
def dropTrailWS : List Char → List Char
  | [] => []
  | c :: rest =>
    match dropTrailWS rest with
    | [] => if isPySpace c then [] else [c]
    | r => c :: r

/-- Python `s.strip()`: remove the leading and the trailing whitespace run. -/
def pyStrip (l : List Char) : List Char :=
  dropTrailWS (l.dropWhile isPySpace)

/-- Case-insensitively consume the pattern `p` (given in lowercase) from the
front of `l`; `none` when `l` does not start with `p`. -/
def dropCI : List Char → List Char → Option (List Char)
  | [], l => some l
  | _ :: _, [] => none
  | p :: ps, c :: cs => if c.toLower = p then dropCI ps cs else none

/-- Consume a non-empty run of whitespace from the front of `l`
(the regex piece `\s+`, read from the rear of the subject string). -/
def dropWS1 : List Char → Option (List Char)
  | [] => none
  | c :: cs => if isPySpace c then some (cs.dropWhile isPySpace) else none

/-- `"district"` reversed, for matching at the end of a reversed string. -/
def revDistrict : List Char := ['t', 'c', 'i', 'r', 't', 's', 'i', 'd']

/-- `"school"` reversed, for matching at the end of a reversed string. -/
def revSchool : List Char := ['l', 'o', 'o', 'h', 'c', 's']

/-- Matcher for the regex `\s+school\s+district$`, run on the reversed
subject string: consume `district`, a whitespace run, `school`, and a final
whitespace run; returns the (reversed) remainder on success. -/
def subCoreSchoolDistrict (rl : List Char) : Option (List Char) :=
  (dropCI revDistrict rl).bind fun r1 =>
  (dropWS1 r1).bind fun r2 =>
  (dropCI revSchool r2).bind dropWS1

/-- `re.sub(r'\s+school\s+district$', '', l, flags=re.IGNORECASE)`
(school-admin-scraper.py line 67). -/
def subSchoolDistrict (l : List Char) : List Char :=
  match subCoreSchoolDistrict l.reverse with
  | some r => r.reverse
  | none => l

/-- Matcher for the regex `\s+district$` on the reversed subject string. -/
def subCoreDistrict (rl : List Char) : Option (List Char) :=
  (dropCI revDistrict rl).bind dropWS1

/-- `re.sub(r'\s+district$', '', l, flags=re.IGNORECASE)`
(school-admin-scraper.py line 68). -/
def subDistrict (l : List Char) : List Char :=
  match subCoreDistrict l.reverse with
  | some r => r.reverse
  | none => l

/-- `re.sub(r'\s+', ' ', l)`: replace every maximal whitespace run by a
single space (school-admin-scraper.py line 69). -/
def collapseWS : List Char → List Char
  | [] => []
  | [c] => if isPySpace c then [' '] else [c]
  | c :: d :: rest =>
    if isPySpace c then
      if isPySpace d then collapseWS (d :: rest)
      else ' ' :: collapseWS (d :: rest)
    else c :: collapseWS (d :: rest)

/-- `clean_search_term` (school-admin-scraper.py lines 62-70):
strip, drop a trailing `... school district`, drop a trailing `... district`
(both case-insensitive, stripping after each), collapse whitespace, strip. -/
def clean_search_term (t : List Char) : List Char :=
  pyStrip (collapseWS (pyStrip (subDistrict (pyStrip (subSchoolDistrict (pyStrip t))))))

/-- The cleaned term ends (case-insensitively) with the word `district`. -/
def endsDistrictCI (l : List Char) : Bool :=
  (dropCI revDistrict l.reverse).isSome

/-- The string contains at least one non-whitespace character. -/
def hasNonWS (l : List Char) : Bool :=
  l.any fun c => !isPySpace c

/-! ### Detail-page extraction (`extract_contact_info`, lines 32-60) -/

/-- Separator class `[-.\s]` of the phone regex. -/
def isSep (c : Char) : Bool :=
  c = '-' || c = '.' || isPySpace c

/-- Consume exactly `n` ASCII digits from the front of `l`. -/
def takeDigits : Nat → List Char → Option (List Char × List Char)
  | 0, l => some ([], l)
  | _ + 1, [] => none
  | n + 1, c :: rest =>
    if c.isDigit then (takeDigits n rest).map fun p => (c :: p.1, p.2) else none

/-- Greedily consume one optional character of class `p` (regex `X?`). -/
def optMatch (p : Char → Bool) (l : List Char) : List Char × List Char :=
  match l with
  | [] => ([], [])
  | c :: rest => if p c then ([c], rest) else ([], l)

/-- Match the phone regex `\(?\d{3}\)?[-.\s]?\d{3}[-.\s]?\d{4}` anchored at
the front of `l`, returning the matched text.  Each optional element is taken
greedily with no backtracking; this is equivalent to the backtracking regex
because every optional character (parenthesis or separator) is a non-digit,
so declining a present optional character always places a non-digit at the
following mandatory digit position and fails anyway. -/
def phoneAt (l : List Char) : Option (List Char) :=
  let (a, l1) := optMatch (· = '(') l
  match takeDigits 3 l1 with
  | none => none
  | some (b, l2) =>
    let (c, l3) := optMatch (· = ')') l2
    let (d, l4) := optMatch isSep l3
    match takeDigits 3 l4 with
    | none => none
    | some (e, l5) =>
      let (f, l6) := optMatch isSep l5
      match takeDigits 4 l6 with
      | none => none
      | some (g, _) => some (a ++ b ++ c ++ d ++ e ++ f ++ g)

/-- `re.search` of the phone pattern: the match at the leftmost position
where one exists (school-admin-scraper.py line 47). -/
def phoneSearch : List Char → Option (List Char)
  | [] => none
  | c :: rest =>
    match phoneAt (c :: rest) with
    | some m => some m
    | none => phoneSearch rest

/-- Split on the newline character (Python `s.split('\n')`). -/
def splitLines : List Char → List (List Char)
  | [] => [[]]
  | c :: rest =>
    if c = '\n' then [] :: splitLines rest
    else
      match splitLines rest with
      | [] => [[c]]
      | ln :: lns => (c :: ln) :: lns

/-- Python `s.replace(pat, repl)`: replace every occurrence, left to right. -/
def replaceAll (pat repl : List Char) (l : List Char) : List Char :=
  if hpat : pat = [] then l
  else
    match l with
    | [] => []
    | c :: rest =>
      if isPrefixB pat (c :: rest) then
        repl ++ replaceAll pat repl ((c :: rest).drop pat.length)
      else
        c :: replaceAll pat repl rest
termination_by l.length
decreasing_by
  · simp only [List.length_drop, List.length_cons]
    have : 1 ≤ pat.length := by
      cases pat with
      | nil => exact absurd rfl hpat
      | cons a as => simp
    omega
  · simp

/-- A rendered `td` field block: its visible text, and the `href` of a
`mailto:` link inside it when one is present (`none` models selenium's
`NoSuchElementException` for the `a[href^='mailto:']` query). -/
structure TdElem where
  text : List Char
  mailtoHref : Option (List Char)
  deriving DecidableEq, Repr

/-- The `"N/A"` sentinel. -/
def NA : List Char := ['N', '/', 'A']

/-- `extract_contact_info` (school-admin-scraper.py lines 32-60):
name is the first non-empty stripped line of the block's text, phone the
first phone-pattern match, email the `mailto:` href with the scheme removed;
each falls back to the `"N/A"` sentinel. -/
def extract_contact_info (td : TdElem) : List Char × List Char × List Char :=
  let full_text := pyStrip td.text
  let lines := ((splitLines full_text).map pyStrip).filter (· ≠ [])
  let name := match lines with
    | [] => NA
    | l :: _ => l
  let phone := match phoneSearch full_text with
    | some m => m
    | none => NA
  let email := match td.mailtoHref with
    | some href => replaceAll ['m', 'a', 'i', 'l', 't', 'o', ':'] [] href
    | none => NA
  (name, phone, email)

/-! ### Result matching -/

/-- A rendered search-result link: its displayed text and whether selenium
reports it as displayed. -/
structure Candidate where
  text : List Char
  displayed : Bool
  deriving DecidableEq, Repr

/-- The link-selection loop of school-admin-scraper.py (lines 164-168):
click the first link whose text contains the cleaned term case-insensitively.
There is no visibility check in this file. -/
def find_link_sas (term : List Char) : List Candidate → Option Candidate
  | [] => none
  | l :: rest => if containsCI term l.text then some l else find_link_sas term rest

/-- The link-selection loop of contactScraper.py (lines 111-117): click the
first link that `is_displayed()` and whose text contains the term
case-insensitively. -/
def find_link_cde (term : List Char) : List Candidate → Option Candidate
  | [] => none
  | l :: rest =>
    if l.displayed && containsCI term l.text then some l
    else find_link_cde term rest

/-! ### The per-term batch loop of `run_scraper_with_config` (lines 120-244)

The browser is an external collaborator; what it returns at each query the
loop makes for one term is collected in a `TermEnv` value.  The loop body is
then a deterministic function of the term, its environment, and the running
state, mirroring the source line by line. -/

/-- Skip reasons, rendered exactly as the source writes them. -/
inductive Reason where
  | noMatchingLink
  | noSearchResults
  | noContactData
  deriving DecidableEq, Repr

/-- The literal reason text of the source (lines 171, 176, 208). -/
def renderReason : Reason → List Char
  | .noMatchingLink => ['N', 'o', ' ', 'm', 'a', 't', 'c', 'h', 'i', 'n', 'g', ' ', 'l', 'i', 'n', 'k']
  | .noSearchResults => ['N', 'o', ' ', 's', 'e', 'a', 'r', 'c', 'h', ' ', 'r', 'e', 's', 'u', 'l', 't', 's']
  | .noContactData => ['N', 'o', ' ', 'c', 'o', 'n', 't', 'a', 'c', 't', ' ', 'd', 'a', 't', 'a', ' ', 'f', 'o', 'u', 'n', 'd']

/-- A skip line `f"{original_term} ({reason})"` (lines 171, 176, 208). -/
def fmtSkip (t : List Char) (r : Reason) : List Char :=
  t ++ [' ', '('] ++ renderReason r ++ [')']

/-- Per-term result status. -/
inductive Status where
  | processed
  | skipped (r : Reason)
  deriving DecidableEq, Repr

/-- The spec's ScrapeOutcome: the term together with its status.  The source
keeps this information as `processed_count` plus `skipped_items`; the outcome
list is carried alongside them in lockstep as specification-level state. -/
structure Outcome where
  term : List Char
  status : Status
  deriving DecidableEq, Repr

/-- True for a `Skipped` outcome. -/
def Outcome.isSkipped (o : Outcome) : Bool :=
  match o.status with
  | .skipped _ => true
  | .processed => false

/-- A scraped record (the dict built at lines 189-195): the original term
under the key column plus the four output fields. -/
structure ContactRecord where
  term : List Char
  name : List Char
  jobTitle : List Char
  email : List Char
  phone : List Char
  deriving DecidableEq, Repr

/-- Where the shared browser session currently is. -/
inductive Page where
  | start
  | entry
  | searched
  deriving DecidableEq, Repr

/-- Running state of the loop: the session page, the source's
`processed_count`, `skipped_items` and `scraped_records` accumulators, the
specification-level outcome list, and the trace of the page the session was
on each time a search was submitted. -/
structure RunState where
  page : Page
  processedCount : Nat
  skippedItems : List (List Char)
  records : List ContactRecord
  outcomes : List Outcome
  searchedFrom : List Page
  deriving DecidableEq, Repr

/-- State before the first iteration (lines 106-108). -/
def initState : RunState :=
  { page := .start, processedCount := 0, skippedItems := [], records := [],
    outcomes := [], searchedFrom := [] }

/-- Record a skipped term (`skipped_items.append(...)` plus its outcome). -/
def recordSkip (t : List Char) (r : Reason) (s : RunState) : RunState :=
  { s with skippedItems := s.skippedItems ++ [fmtSkip t r],
           outcomes := s.outcomes ++ [⟨t, .skipped r⟩] }

/-- Record a processed term (`processed_count += 1` plus its outcome). -/
def recordProcessed (t : List Char) (s : RunState) : RunState :=
  { s with processedCount := s.processedCount + 1,
           outcomes := s.outcomes ++ [⟨t, .processed⟩] }

/-- What the browser yields during one loop iteration that raises no
search-bar timeout and no unexpected exception. -/
structure TermEnvNormal where
  /-- Text of the `h1.page-title` element, `none` for `NoSuchElementException`
  (line 150). -/
  detailTitle : Option (List Char)
  /-- The rendered result links, `none` when the 10-second wait at line 160
  times out. -/
  results : Option (List Candidate)
  /-- For each configured role in order (line 182), the located `td` block or
  `none` for `NoSuchElementException` (line 184). -/
  roles : List (List Char × Option TdElem)
  deriving DecidableEq, Repr

/-- What one loop iteration encounters: the search bar fails to load within
10 seconds (`break`, lines 128-134), an unexpected exception propagates to
the handler at line 212 ending the batch, or a normal iteration. -/
inductive TermEnv where
  | barTimeout
  | fatal
  | normal (e : TermEnvNormal)
  deriving DecidableEq, Repr

/-- True for a `normal` iteration environment. -/
def TermEnv.isNormal : TermEnv → Bool
  | .normal _ => true
  | _ => false

/-- `driver.get(config['url'])` (line 126): the session returns to the entry
page, whatever it showed before. -/
def gotoEntry (s : RunState) : RunState :=
  { s with page := .entry }

/-- The direct-landing check (lines 148-155): landed iff the detail-page
title element exists and contains the cleaned term case-insensitively. -/
def landedCheck (cleaned : List Char) (detailTitle : Option (List Char)) : Bool :=
  match detailTitle with
  | some title => containsCI cleaned title
  | none => false

/-- One step of the extraction loop (lines 183-203): if the role's `td`
block exists and the extracted name differs from `"N/A"`, append a record
and set `found_data`. -/
def roleStep (t : List Char) (acc : Bool × RunState)
    (role : List Char × Option TdElem) : Bool × RunState :=
  match role.2 with
  | none => acc
  | some td =>
    let r := extract_contact_info td
    if r.1 ≠ NA then
      (true, { acc.2 with records := acc.2.records ++
                 [⟨t, r.1, role.1, r.2.2, r.2.1⟩] })
    else acc

/-- The extraction loop over configured roles (lines 181-208): for each role
whose `td` block exists, extract; a record is appended and `found_data` set
only when the extracted name differs from `"N/A"`.  Afterwards the term is
counted processed, or skipped with `No contact data found`. -/
def extractPhase (t : List Char) (roles : List (List Char × Option TdElem))
    (s : RunState) : RunState :=
  let res := roles.foldl (roleStep t) (false, s)
  if res.1 then recordProcessed t res.2 else recordSkip t .noContactData res.2

/-- The results branch (lines 157-177 then 179-208): wait for result links
(`none` = timeout, skip with `No search results`), click the first text
match (`none` = skip with `No matching link`), then extract. -/
def resultsPhase (t cleaned : List Char) (roles : List (List Char × Option TdElem))
    (results : Option (List Candidate)) (s : RunState) : RunState :=
  match results with
  | none => recordSkip t .noSearchResults s
  | some links =>
    match find_link_sas cleaned links with
    | none => recordSkip t .noMatchingLink s
    | some _ => extractPhase t roles s

/-- One normal loop iteration after the entry page was reloaded
(lines 136-208): submit the cleaned term, check for a direct landing, else
wait for results and click the first text match, then extract. -/
def termBody (t : List Char) (e : TermEnvNormal) (s : RunState) : RunState :=
  let s := { s with searchedFrom := s.searchedFrom ++ [s.page], page := .searched }
  let cleaned := clean_search_term t
  if landedCheck cleaned e.detailTitle then
    extractPhase t e.roles s
  else
    resultsPhase t cleaned e.roles e.results s

/-- The `for` loop of lines 123-210 over (term, iteration environment)
pairs.  Every iteration starts with `driver.get(config['url'])`; a search-bar
timeout breaks the loop and an unexpected exception ends it through the
handler at line 212, both leaving the accumulated state for the `finally`
block. -/
def runLoop : List (List Char × TermEnv) → RunState → RunState
  | [], s => s
  | (t, e) :: rest, s =>
    let s1 := gotoEntry s
    match e with
    | .barTimeout => s1
    | .fatal => s1
    | .normal en => runLoop rest (termBody t en s1)

/-! ### Persistence (`finally` block, lines 215-244) -/

/-- A row of the input dataset: the key-column value and the remaining
columns passed through unchanged. -/
structure InputRow where
  key : List Char
  rest : List (List Char)
  deriving DecidableEq, Repr

/-- A row of the merged output dataset: the original row plus the four
output columns, `none` where the left join matched nothing. -/
structure OutputRow where
  key : List Char
  rest : List (List Char)
  cname : Option (List Char)
  cjob : Option (List Char)
  cemail : Option (List Char)
  cphone : Option (List Char)
  deriving DecidableEq, Repr

/-- The scraped records whose key-column value equals `k`. -/
def matchesFor (recs : List ContactRecord) (k : List Char) : List ContactRecord :=
  recs.filter fun r => r.term = k

/-- `pd.merge(df, scraped_df, on=key, how='left')` (line 223): every input
row in order; an unmatched row yields one output row with blank output
columns, a matched row yields one output row per matching record. -/
def mergeLeft (df : List InputRow) (recs : List ContactRecord) : List OutputRow :=
  df.flatMap fun row =>
    match matchesFor recs row.key with
    | [] => [⟨row.key, row.rest, none, none, none, none⟩]
    | ms => ms.map fun r => ⟨row.key, row.rest, some r.name, some r.jobTitle, some r.email, some r.phone⟩

/-- What the `finally` block leaves behind: the updated dataset written over
the input file when any record was scraped (lines 221-230), the sidecar skip
report when any term was skipped (lines 236-244), and the browser shutdown
(lines 216-218). -/
structure RunResult where
  finalState : RunState
  written : Option (List OutputRow)
  report : Option (List (List Char))
  driverQuit : Bool
  deriving DecidableEq, Repr

/-- The loop over `pairs` followed by the `finally` block, for an input
dataset `df`.  This models `run_scraper_with_config` from the point where
the dataset was loaded and the browser session acquired. -/
def runFullPairs (df : List InputRow) (pairs : List (List Char × TermEnv)) : RunResult :=
  let s := runLoop pairs initState
  { finalState := s,
    written := if s.records = [] then none else some (mergeLeft df s.records),
    report := if s.skippedItems = [] then none else some s.skippedItems,
    driverQuit := true }

/-! ## Normaliser lemmas -/

lemma length_dropWhile_le (p : Char → Bool) :
    ∀ l : List Char, (l.dropWhile p).length ≤ l.length
  | [] => Nat.le_refl 0
  | c :: t => by
    rw [List.dropWhile_cons]
    by_cases hc : p c = true
    · rw [if_pos hc]
      exact Nat.le_succ_of_le (length_dropWhile_le p t)
    · rw [if_neg hc]

lemma head_not_ws_of_dropWhile_eq (p : Char → Bool) (c : Char) (t : List Char)
    (h : (c :: t).dropWhile p = c :: t) : p c = false := by
  by_cases hc : p c = true
  · rw [List.dropWhile_cons, if_pos hc] at h
    have hlen := congrArg List.length h
    have hle := length_dropWhile_le p t
    rw [List.length_cons] at hlen
    omega
  · simpa using hc

lemma dropWhile_ws_self :
    ∀ l : List Char,
      (l.dropWhile isPySpace).dropWhile isPySpace = l.dropWhile isPySpace
  | [] => rfl
  | c :: t => by
    by_cases hc : isPySpace c = true
    · rw [List.dropWhile_cons, if_pos hc]
      exact dropWhile_ws_self t
    · rw [List.dropWhile_cons, if_neg hc, List.dropWhile_cons, if_neg hc]

lemma dTW_cons_nil (c : Char) (t : List Char) (h : dropTrailWS t = []) :
    dropTrailWS (c :: t) = if isPySpace c then [] else [c] := by
  simp [dropTrailWS, h]

lemma dTW_cons_cons (c : Char) (t : List Char) (r : Char) (rs : List Char)
    (h : dropTrailWS t = r :: rs) :
    dropTrailWS (c :: t) = c :: r :: rs := by
  simp [dropTrailWS, h]

lemma dTW_head (d : Char) (rest : List Char) :
    dropTrailWS (d :: rest) = [] ∨ ∃ ys, dropTrailWS (d :: rest) = d :: ys := by
  cases h2 : dropTrailWS rest with
  | nil =>
    rw [dTW_cons_nil d rest h2]
    by_cases hd : isPySpace d = true
    · rw [if_pos hd]; exact Or.inl rfl
    · rw [if_neg hd]; exact Or.inr ⟨[], rfl⟩
  | cons r rs =>
    rw [dTW_cons_cons d rest r rs h2]
    exact Or.inr ⟨r :: rs, rfl⟩

lemma dTW_idem : ∀ l : List Char, dropTrailWS (dropTrailWS l) = dropTrailWS l
  | [] => rfl
  | c :: t => by
    cases h2 : dropTrailWS t with
    | nil =>
      rw [dTW_cons_nil c t h2]
      by_cases hc : isPySpace c = true
      · rw [if_pos hc]; rfl
      · rw [if_neg hc, dTW_cons_nil c [] rfl, if_neg hc]
    | cons r rs =>
      rw [dTW_cons_cons c t r rs h2]
      have ht := dTW_idem t
      rw [h2] at ht
      rw [dTW_cons_cons c (r :: rs) r rs ht]

lemma dropWhile_dTW (l : List Char) (h : l.dropWhile isPySpace = l) :
    (dropTrailWS l).dropWhile isPySpace = dropTrailWS l := by
  cases l with
  | nil => rfl
  | cons c t =>
    have hc : isPySpace c = false := head_not_ws_of_dropWhile_eq _ c t h
    cases h2 : dropTrailWS t with
    | nil =>
      rw [dTW_cons_nil c t h2, if_neg (by simp [hc])]
      rw [List.dropWhile_cons, if_neg (by simp [hc])]
    | cons r rs =>
      rw [dTW_cons_cons c t r rs h2]
      rw [List.dropWhile_cons, if_neg (by simp [hc])]

lemma pyStrip_noLead (l : List Char) :
    (pyStrip l).dropWhile isPySpace = pyStrip l :=
  dropWhile_dTW _ (dropWhile_ws_self l)

lemma pyStrip_idem (l : List Char) : pyStrip (pyStrip l) = pyStrip l := by
  show dropTrailWS ((dropTrailWS (l.dropWhile isPySpace)).dropWhile isPySpace)
      = dropTrailWS (l.dropWhile isPySpace)
  rw [dropWhile_dTW _ (dropWhile_ws_self l), dTW_idem]

/-- The shape of whitespace that `re.sub(r'\s+', ' ', ·)` leaves behind:
every whitespace character is a plain space and no two are adjacent. -/
def wsNormal : List Char → Bool
  | [] => true
  | [c] => !isPySpace c || c = ' '
  | c :: d :: rest => (!isPySpace c || (c = ' ' && !isPySpace d)) && wsNormal (d :: rest)

lemma wsNormal_tail (c : Char) :
    ∀ t : List Char, wsNormal (c :: t) = true → wsNormal t = true
  | [], _ => rfl
  | d :: rest, h => by
    rw [wsNormal, Bool.and_eq_true] at h
    exact h.2

lemma wsNormal_cons_notws (c : Char) (t : List Char) (hc : isPySpace c = false)
    (h : wsNormal t = true) : wsNormal (c :: t) = true := by
  cases t with
  | nil => simp [wsNormal, hc]
  | cons d rest => simp [wsNormal, hc, h]

lemma collapseWS_cons_notws (d : Char) (rest : List Char)
    (hd : isPySpace d = false) :
    ∃ x, collapseWS (d :: rest) = d :: x := by
  cases rest with
  | nil => exact ⟨[], by simp [collapseWS, hd]⟩
  | cons e r2 => exact ⟨collapseWS (e :: r2), by simp [collapseWS, hd]⟩

lemma wsNormal_collapseWS (l : List Char) : wsNormal (collapseWS l) = true := by
  induction l using collapseWS.induct with
  | case1 => rfl
  | case2 c hc =>
    have hr : collapseWS [c] = [' '] := by simp [collapseWS, hc]
    rw [hr]
    decide
  | case3 c hc =>
    rw [Bool.not_eq_true] at hc
    have hr : collapseWS [c] = [c] := by simp [collapseWS, hc]
    rw [hr]
    simp [wsNormal, hc]
  | case4 c d rest hc hd ih =>
    have hr : collapseWS (c :: d :: rest) = collapseWS (d :: rest) := by
      simp [collapseWS, hc, hd]
    rw [hr]
    exact ih
  | case5 c d rest hc hd ih =>
    rw [Bool.not_eq_true] at hd
    obtain ⟨x, hx⟩ := collapseWS_cons_notws d rest hd
    have hr : collapseWS (c :: d :: rest) = ' ' :: collapseWS (d :: rest) := by
      simp [collapseWS, hc, hd]
    rw [hr, hx, wsNormal, Bool.and_eq_true]
    refine ⟨by rw [hd]; decide, ?_⟩
    rw [← hx]
    exact ih
  | case6 c d rest hc ih =>
    rw [Bool.not_eq_true] at hc
    have hr : collapseWS (c :: d :: rest) = c :: collapseWS (d :: rest) := by
      simp [collapseWS, hc]
    rw [hr]
    exact wsNormal_cons_notws c _ hc ih

lemma collapseWS_eq_self_of_wsNormal (l : List Char)
    (h : wsNormal l = true) : collapseWS l = l := by
  induction l using collapseWS.induct with
  | case1 => rfl
  | case2 c hc =>
    have hsp : c = ' ' := by
      rw [wsNormal] at h
      simpa [hc] using h
    simp [collapseWS, hc, hsp]
  | case3 c hc =>
    rw [Bool.not_eq_true] at hc
    simp [collapseWS, hc]
  | case4 c d rest hc hd ih =>
    exfalso
    rw [wsNormal, Bool.and_eq_true] at h
    have h1 := h.1
    rw [Bool.or_eq_true] at h1
    rcases h1 with h1 | h1
    · simp [hc] at h1
    · rw [Bool.and_eq_true] at h1
      simp [hd] at h1
  | case5 c d rest hc hd ih =>
    have hsp : c = ' ' := by
      rw [wsNormal, Bool.and_eq_true] at h
      have h1 := h.1
      rw [Bool.or_eq_true] at h1
      rcases h1 with h1 | h1
      · simp [hc] at h1
      · rw [Bool.and_eq_true] at h1
        simpa using h1.1
    rw [Bool.not_eq_true] at hd
    have hr : collapseWS (c :: d :: rest) = ' ' :: collapseWS (d :: rest) := by
      simp [collapseWS, hc, hd]
    rw [hr, ih (wsNormal_tail c _ h), hsp]
  | case6 c d rest hc ih =>
    rw [Bool.not_eq_true] at hc
    have hr : collapseWS (c :: d :: rest) = c :: collapseWS (d :: rest) := by
      simp [collapseWS, hc]
    rw [hr, ih (wsNormal_tail c _ h)]

lemma wsNormal_dropWhile :
    ∀ l : List Char, wsNormal l = true →
      wsNormal (l.dropWhile isPySpace) = true
  | [], h => h
  | c :: t, h => by
    by_cases hc : isPySpace c = true
    · rw [List.dropWhile_cons, if_pos hc]
      exact wsNormal_dropWhile t (wsNormal_tail c t h)
    · rw [List.dropWhile_cons, if_neg hc]
      exact h

lemma wsNormal_dTW :
    ∀ l : List Char, wsNormal l = true → wsNormal (dropTrailWS l) = true
  | [], h => h
  | c :: t, h => by
    cases h2 : dropTrailWS t with
    | nil =>
      rw [dTW_cons_nil c t h2]
      by_cases hc : isPySpace c = true
      · rw [if_pos hc]; rfl
      · rw [if_neg hc]
        cases t with
        | nil => exact h
        | cons d rest =>
          simp [wsNormal, hc]
    | cons r rs =>
      rw [dTW_cons_cons c t r rs h2]
      cases t with
      | nil => simp [dropTrailWS] at h2
      | cons d rest =>
        have hrd : r = d ∧ dropTrailWS (d :: rest) = d :: rs := by
          rcases dTW_head d rest with h3 | ⟨ys, h3⟩
          · rw [h3] at h2; exact absurd h2 (by simp)
          · rw [h3] at h2
            obtain ⟨hr, hys⟩ := List.cons.inj h2
            exact ⟨hr.symm, by rw [h3, hr, hys]⟩
        obtain ⟨rfl, h4⟩ := hrd
        have htail : wsNormal (r :: rs) = true := by
          have := wsNormal_dTW (r :: rest) (wsNormal_tail c _ h)
          rw [h4] at this
          exact this
        rw [wsNormal, Bool.and_eq_true]
        refine ⟨?_, htail⟩
        rw [wsNormal, Bool.and_eq_true] at h
        exact h.1

lemma endsDistrictCI_false_none (l : List Char) (h : endsDistrictCI l = false) :
    dropCI revDistrict l.reverse = none := by
  unfold endsDistrictCI at h
  cases hd : dropCI revDistrict l.reverse with
  | none => rfl
  | some r => rw [hd] at h; simp at h

lemma subDistrict_id (l : List Char) (h : endsDistrictCI l = false) :
    subDistrict l = l := by
  unfold subDistrict subCoreDistrict
  rw [endsDistrictCI_false_none l h]
  rfl

lemma subSchoolDistrict_id (l : List Char) (h : endsDistrictCI l = false) :
    subSchoolDistrict l = l := by
  unfold subSchoolDistrict subCoreSchoolDistrict
  rw [endsDistrictCI_false_none l h]
  rfl

lemma dropCI_append :
    ∀ p l r : List Char, dropCI p l = some r → ∃ q, l = q ++ r
  | [], l, r, h => by
    injection h with h
    exact ⟨[], by rw [h]; rfl⟩
  | a :: ps, [], r, h => by simp [dropCI] at h
  | a :: ps, c :: cs, r, h => by
    rw [dropCI] at h
    by_cases hc : c.toLower = a
    · rw [if_pos hc] at h
      obtain ⟨q, hq⟩ := dropCI_append ps cs r h
      exact ⟨c :: q, by rw [List.cons_append, hq]⟩
    · rw [if_neg hc] at h
      exact absurd h (by simp)

lemma dropWS1_append (l r : List Char) (h : dropWS1 l = some r) :
    ∃ q, l = q ++ r ∧ q ≠ [] ∧ ∀ x ∈ q, isPySpace x = true := by
  cases l with
  | nil => simp [dropWS1] at h
  | cons c cs =>
    rw [dropWS1] at h
    by_cases hc : isPySpace c = true
    · rw [if_pos hc] at h
      injection h with h
      refine ⟨c :: cs.takeWhile isPySpace, ?_, by simp, ?_⟩
      · rw [List.cons_append, ← h, List.takeWhile_append_dropWhile]
      · intro x hx
        rcases List.mem_cons.mp hx with rfl | hx
        · exact hc
        · exact List.mem_takeWhile_imp hx
    · rw [if_neg hc] at h
      exact absurd h (by simp)

lemma subCoreDistrict_split (rl r : List Char)
    (h : subCoreDistrict rl = some r) :
    ∃ p w, rl = p ++ w ++ r ∧ w ≠ [] ∧ ∀ x ∈ w, isPySpace x = true := by
  unfold subCoreDistrict at h
  cases h1 : dropCI revDistrict rl with
  | none => rw [h1] at h; simp at h
  | some r1 =>
    rw [h1] at h
    have h2 : dropWS1 r1 = some r := h
    obtain ⟨q, hq⟩ := dropCI_append _ _ _ h1
    obtain ⟨w, hw, hwne, hws⟩ := dropWS1_append r1 r h2
    exact ⟨q, w, by rw [hq, hw, List.append_assoc], hwne, hws⟩

lemma subCoreSchoolDistrict_split (rl r : List Char)
    (h : subCoreSchoolDistrict rl = some r) :
    ∃ p w, rl = p ++ w ++ r ∧ w ≠ [] ∧ ∀ x ∈ w, isPySpace x = true := by
  unfold subCoreSchoolDistrict at h
  cases h1 : dropCI revDistrict rl with
  | none => rw [h1] at h; simp at h
  | some r1 =>
    rw [h1] at h
    have h1' : ((dropWS1 r1).bind fun r2 =>
        (dropCI revSchool r2).bind dropWS1) = some r := h
    cases h2 : dropWS1 r1 with
    | none => rw [h2] at h1'; simp at h1'
    | some r2 =>
      rw [h2] at h1'
      have h2' : ((dropCI revSchool r2).bind dropWS1) = some r := h1'
      cases h3 : dropCI revSchool r2 with
      | none => rw [h3] at h2'; simp at h2'
      | some r3 =>
        rw [h3] at h2'
        have h4 : dropWS1 r3 = some r := h2'
        obtain ⟨q1, hq1⟩ := dropCI_append _ _ _ h1
        obtain ⟨w2, hw2, _, _⟩ := dropWS1_append r1 r2 h2
        obtain ⟨q3, hq3⟩ := dropCI_append _ _ _ h3
        obtain ⟨w4, hw4, hwne, hws⟩ := dropWS1_append r3 r h4
        refine ⟨q1 ++ w2 ++ q3, w4, ?_, hwne, hws⟩
        rw [hq1, hw2, hq3, hw4]
        simp [List.append_assoc]

lemma hasNonWS_of_cons_ws (c : Char) (t : List Char) (hc : isPySpace c = true)
    (h : hasNonWS (c :: t) = true) : hasNonWS t = true := by
  rw [hasNonWS, List.any_cons, hc, Bool.or_eq_true] at h
  rcases h with h | h
  · simp at h
  · exact h

lemma hasNonWS_cons_head (c : Char) (t : List Char) (hc : isPySpace c = false) :
    hasNonWS (c :: t) = true := by
  rw [hasNonWS, List.any_cons, hc]
  simp

lemma hasNonWS_cons_tail (c : Char) (t : List Char) (h : hasNonWS t = true) :
    hasNonWS (c :: t) = true := by
  rw [hasNonWS, List.any_cons]
  rw [hasNonWS] at h
  simp [h]

lemma hasNonWS_dropWhile :
    ∀ l : List Char, hasNonWS l = true →
      hasNonWS (l.dropWhile isPySpace) = true
  | [], h => h
  | c :: t, h => by
    by_cases hc : isPySpace c = true
    · rw [List.dropWhile_cons, if_pos hc]
      exact hasNonWS_dropWhile t (hasNonWS_of_cons_ws c t hc h)
    · rw [List.dropWhile_cons, if_neg hc]
      exact h

lemma hasNonWS_dTW :
    ∀ l : List Char, hasNonWS l = true → hasNonWS (dropTrailWS l) = true
  | [], h => h
  | c :: t, h => by
    cases h2 : dropTrailWS t with
    | nil =>
      rw [dTW_cons_nil c t h2]
      by_cases hc : isPySpace c = true
      · exfalso
        have h4 := hasNonWS_dTW t (hasNonWS_of_cons_ws c t hc h)
        rw [h2] at h4
        simp [hasNonWS] at h4
      · rw [if_neg hc]
        exact hasNonWS_cons_head c [] (by simpa using hc)
    | cons r rs =>
      rw [dTW_cons_cons c t r rs h2]
      by_cases hc : isPySpace c = true
      · have h4 := hasNonWS_dTW t (hasNonWS_of_cons_ws c t hc h)
        rw [h2] at h4
        exact hasNonWS_cons_tail c _ h4
      · exact hasNonWS_cons_head c _ (by simpa using hc)

lemma hasNonWS_pyStrip (l : List Char) (h : hasNonWS l = true) :
    hasNonWS (pyStrip l) = true :=
  hasNonWS_dTW _ (hasNonWS_dropWhile l h)

lemma hasNonWS_collapseWS (l : List Char) (h : hasNonWS l = true) :
    hasNonWS (collapseWS l) = true := by
  induction l using collapseWS.induct with
  | case1 => exact h
  | case2 c hc =>
    exfalso
    rw [hasNonWS, List.any_cons] at h
    simp [hc] at h
  | case3 c hc =>
    rw [Bool.not_eq_true] at hc
    have hr : collapseWS [c] = [c] := by simp [collapseWS, hc]
    rw [hr]
    exact hasNonWS_cons_head c [] hc
  | case4 c d rest hc hd ih =>
    have hr : collapseWS (c :: d :: rest) = collapseWS (d :: rest) := by
      simp [collapseWS, hc, hd]
    rw [hr]
    exact ih (hasNonWS_of_cons_ws c _ hc h)
  | case5 c d rest hc hd ih =>
    rw [Bool.not_eq_true] at hd
    have hr : collapseWS (c :: d :: rest) = ' ' :: collapseWS (d :: rest) := by
      simp [collapseWS, hc, hd]
    rw [hr]
    exact hasNonWS_cons_tail ' ' _ (ih (hasNonWS_cons_head d rest hd))
  | case6 c d rest hc ih =>
    rw [Bool.not_eq_true] at hc
    have hr : collapseWS (c :: d :: rest) = c :: collapseWS (d :: rest) := by
      simp [collapseWS, hc]
    rw [hr]
    exact hasNonWS_cons_head c _ hc

lemma hasNonWS_ne_nil (l : List Char) (h : hasNonWS l = true) : l ≠ [] := by
  intro e
  subst e
  simp [hasNonWS] at h

/-- A suffix survives the tail-deletion of one of the two trailing-pattern
substitutions: the deleted part begins with whitespace, so on a
leading-stripped string with a non-whitespace character the remainder still
has one. -/
lemma hasNonWS_sub_split (l r : List Char)
    (hsplit : ∃ p w, l.reverse = p ++ w ++ r ∧ w ≠ [] ∧ ∀ x ∈ w, isPySpace x = true)
    (hstr : l.dropWhile isPySpace = l) (hnw : hasNonWS l = true) :
    hasNonWS r.reverse = true := by
  obtain ⟨p, w, hrl, hwne, hws⟩ := hsplit
  have hl : l = r.reverse ++ (w.reverse ++ p.reverse) := by
    have h0 := congrArg List.reverse hrl
    rw [List.reverse_reverse] at h0
    rw [h0]
    simp [List.reverse_append, List.append_assoc]
  cases hr : r.reverse with
  | nil =>
    exfalso
    rw [hr, List.nil_append] at hl
    cases hwr : w.reverse with
    | nil =>
      apply hwne
      have := congrArg List.reverse hwr
      simpa using this
    | cons x xs =>
      have hx : x ∈ w := by
        have hx0 : x ∈ w.reverse := by rw [hwr]; exact List.mem_cons_self _ _
        exact List.mem_reverse.mp hx0
      have hxws := hws x hx
      rw [hwr, List.cons_append] at hl
      have hhead := head_not_ws_of_dropWhile_eq isPySpace x (xs ++ p.reverse)
        (by rw [← hl]; exact hstr)
      rw [hxws] at hhead
      simp at hhead
  | cons x xs =>
    rw [hr, List.cons_append] at hl
    have hhead := head_not_ws_of_dropWhile_eq isPySpace x (xs ++ (w.reverse ++ p.reverse))
      (by rw [← hl]; exact hstr)
    exact hasNonWS_cons_head x xs hhead

lemma hasNonWS_subDistrict (l : List Char)
    (hstr : l.dropWhile isPySpace = l) (hnw : hasNonWS l = true) :
    hasNonWS (subDistrict l) = true := by
  cases h : subCoreDistrict l.reverse with
  | none => simp only [subDistrict, h]; exact hnw
  | some r =>
    simp only [subDistrict, h]
    exact hasNonWS_sub_split l r (subCoreDistrict_split _ _ h) hstr hnw

lemma hasNonWS_subSchoolDistrict (l : List Char)
    (hstr : l.dropWhile isPySpace = l) (hnw : hasNonWS l = true) :
    hasNonWS (subSchoolDistrict l) = true := by
  cases h : subCoreSchoolDistrict l.reverse with
  | none => simp only [subSchoolDistrict, h]; exact hnw
  | some r =>
    simp only [subSchoolDistrict, h]
    exact hasNonWS_sub_split l r (subCoreSchoolDistrict_split _ _ h) hstr hnw

/-! ## C2 -/

/-- C2 (counterexample): `clean_search_term` is not idempotent — on
`"x district district"` one application strips only the last `" district"`,
a second strips again — and the all-whitespace input `"   "` is non-empty
yet cleans to the empty string. -/
theorem C2_normalize_cex :
    clean_search_term (clean_search_term "x district district".data)
        ≠ clean_search_term "x district district".data
    ∧ ("   ".data ≠ ([] : List Char) ∧ clean_search_term "   ".data = []) := by
  decide

/-- C2 (amended): `clean_search_term` is idempotent on every string whose
cleaned form does not end, case-insensitively, with the word `district`
(re-application can only strip a further trailing `district` pattern), and
it returns a non-empty string for every input containing at least one
non-whitespace character. -/
theorem C2_normalize_amended :
    (∀ x : List Char, endsDistrictCI (clean_search_term x) = false →
        clean_search_term (clean_search_term x) = clean_search_term x)
    ∧ (∀ x : List Char, hasNonWS x = true → clean_search_term x ≠ []) := by
  constructor
  · intro x h
    have hdef : clean_search_term x
        = pyStrip (collapseWS (pyStrip (subDistrict (pyStrip
            (subSchoolDistrict (pyStrip x)))))) := rfl
    have h1 : pyStrip (clean_search_term x) = clean_search_term x := by
      rw [hdef]
      exact pyStrip_idem _
    have h2 : subSchoolDistrict (clean_search_term x) = clean_search_term x :=
      subSchoolDistrict_id _ h
    have h3 : subDistrict (clean_search_term x) = clean_search_term x :=
      subDistrict_id _ h
    have h4 : collapseWS (clean_search_term x) = clean_search_term x := by
      apply collapseWS_eq_self_of_wsNormal
      rw [hdef]
      show wsNormal (dropTrailWS (List.dropWhile isPySpace _)) = true
      exact wsNormal_dTW _ (wsNormal_dropWhile _ (wsNormal_collapseWS _))
    show pyStrip (collapseWS (pyStrip (subDistrict (pyStrip
        (subSchoolDistrict (pyStrip (clean_search_term x))))))) = clean_search_term x
    simp only [h1, h2, h3, h4]
  · intro x hnw
    apply hasNonWS_ne_nil
    have s1 : hasNonWS (pyStrip x) = true := hasNonWS_pyStrip x hnw
    have s2 : hasNonWS (subSchoolDistrict (pyStrip x)) = true :=
      hasNonWS_subSchoolDistrict _ (pyStrip_noLead x) s1
    have s3 : hasNonWS (pyStrip (subSchoolDistrict (pyStrip x))) = true :=
      hasNonWS_pyStrip _ s2
    have s4 : hasNonWS (subDistrict (pyStrip (subSchoolDistrict (pyStrip x)))) = true :=
      hasNonWS_subDistrict _ (pyStrip_noLead _) s3
    have s5 := hasNonWS_pyStrip _ s4
    have s6 := hasNonWS_collapseWS _ s5
    exact hasNonWS_pyStrip _ s6

/-- C2 amended witness: the spec's own scenario term is idempotent under
cleaning, and a noisy but non-blank term cleans to a non-empty string. -/
theorem C2_normalize_amended_witness :
    clean_search_term (clean_search_term "Some Unified School District".data)
        = clean_search_term "Some Unified School District".data
    ∧ clean_search_term "  Los  Angeles ".data ≠ [] :=
  ⟨C2_normalize_amended.1 _ (by decide), C2_normalize_amended.2 _ (by decide)⟩

/-! ## Loop bookkeeping lemmas -/

/-- The skip-report line contributed by an outcome: one line for a skipped
term, nothing for a processed one. -/
def skipLine (o : Outcome) : Option (List Char) :=
  match o.status with
  | .skipped r => some (fmtSkip o.term r)
  | .processed => none

lemma roleStep_ghost (t : List Char) (acc : Bool × RunState)
    (role : List Char × Option TdElem) :
    (roleStep t acc role).2.outcomes = acc.2.outcomes
    ∧ (roleStep t acc role).2.skippedItems = acc.2.skippedItems
    ∧ (roleStep t acc role).2.searchedFrom = acc.2.searchedFrom := by
  cases hr : role.2 with
  | none => simp [roleStep, hr]
  | some td =>
    by_cases hn : (extract_contact_info td).1 ≠ NA <;>
      simp [roleStep, hr, hn]

lemma foldl_roleStep_ghost (t : List Char) :
    ∀ (roles : List (List Char × Option TdElem)) (acc : Bool × RunState),
    (roles.foldl (roleStep t) acc).2.outcomes = acc.2.outcomes
    ∧ (roles.foldl (roleStep t) acc).2.skippedItems = acc.2.skippedItems
    ∧ (roles.foldl (roleStep t) acc).2.searchedFrom = acc.2.searchedFrom
  | [], acc => ⟨rfl, rfl, rfl⟩
  | role :: rest, acc => by
    have h1 := roleStep_ghost t acc role
    have h2 := foldl_roleStep_ghost t rest (roleStep t acc role)
    simp only [List.foldl_cons]
    exact ⟨h2.1.trans h1.1, h2.2.1.trans h1.2.1, h2.2.2.trans h1.2.2⟩

/-- The extraction phase charges its term with exactly one outcome, adds the
corresponding skip line when that outcome is a skip, and leaves the search
trace alone. -/
lemma extractPhase_step (t : List Char) (roles : List (List Char × Option TdElem))
    (s : RunState) :
    ∃ st : Status,
      (extractPhase t roles s).outcomes = s.outcomes ++ [⟨t, st⟩]
      ∧ (extractPhase t roles s).skippedItems
          = s.skippedItems ++ (skipLine ⟨t, st⟩).toList
      ∧ (extractPhase t roles s).searchedFrom = s.searchedFrom := by
  unfold extractPhase
  obtain ⟨ho, hs, hf⟩ := foldl_roleStep_ghost t roles (false, s)
  by_cases hb : (roles.foldl (roleStep t) (false, s)).1 = true
  · exact ⟨.processed, by simp [hb, recordProcessed, ho, hs, hf, skipLine]⟩
  · rw [Bool.not_eq_true] at hb
    exact ⟨.skipped .noContactData,
      by simp [hb, recordSkip, ho, hs, hf, skipLine]⟩

/-- The results branch charges its term with exactly one outcome, adds the
corresponding skip line when skipped, and leaves the search trace alone. -/
lemma resultsPhase_step (t cleaned : List Char)
    (roles : List (List Char × Option TdElem)) (results : Option (List Candidate))
    (s : RunState) :
    ∃ st : Status,
      (resultsPhase t cleaned roles results s).outcomes = s.outcomes ++ [⟨t, st⟩]
      ∧ (resultsPhase t cleaned roles results s).skippedItems
          = s.skippedItems ++ (skipLine ⟨t, st⟩).toList
      ∧ (resultsPhase t cleaned roles results s).searchedFrom = s.searchedFrom := by
  cases results with
  | none => exact ⟨.skipped .noSearchResults, by simp [resultsPhase, recordSkip, skipLine]⟩
  | some links =>
    cases hfind : find_link_sas cleaned links with
    | none =>
      refine ⟨.skipped .noMatchingLink, ?_⟩
      simp only [resultsPhase, hfind]
      simp [recordSkip, skipLine]
    | some c =>
      obtain ⟨st, h1, h2, h3⟩ := extractPhase_step t roles s
      refine ⟨st, ?_, ?_, ?_⟩ <;> simp only [resultsPhase, hfind] <;> assumption

/-- One normal iteration charges its term with exactly one outcome, adds the
matching skip line when skipped, and records that its search was submitted
from the page the session was on when the iteration began. -/
lemma termBody_step (t : List Char) (e : TermEnvNormal) (s : RunState) :
    ∃ st : Status,
      (termBody t e s).outcomes = s.outcomes ++ [⟨t, st⟩]
      ∧ (termBody t e s).skippedItems = s.skippedItems ++ (skipLine ⟨t, st⟩).toList
      ∧ (termBody t e s).searchedFrom = s.searchedFrom ++ [s.page] := by
  unfold termBody
  by_cases hl : landedCheck (clean_search_term t) e.detailTitle = true
  · rw [if_pos hl]
    obtain ⟨st, h1, h2, h3⟩ := extractPhase_step t e.roles
      { s with searchedFrom := s.searchedFrom ++ [s.page], page := .searched }
    exact ⟨st, h1, h2, h3⟩
  · rw [if_neg hl]
    obtain ⟨st, h1, h2, h3⟩ := resultsPhase_step t (clean_search_term t) e.roles e.results
      { s with searchedFrom := s.searchedFrom ++ [s.page], page := .searched }
    exact ⟨st, h1, h2, h3⟩

lemma termBody_skipInv (t : List Char) (en : TermEnvNormal) (s : RunState)
    (h : s.skippedItems = s.outcomes.filterMap skipLine) :
    (termBody t en s).skippedItems = (termBody t en s).outcomes.filterMap skipLine := by
  obtain ⟨st, h1, h2, _⟩ := termBody_step t en s
  rw [h1, h2, List.filterMap_append, h]
  cases hst : skipLine ⟨t, st⟩ <;> simp [hst]

/-- Every reachable state keeps the source's `skipped_items` list equal to
the skip lines of its skipped outcomes. -/
lemma runLoop_skipInv :
    ∀ (pairs : List (List Char × TermEnv)) (s : RunState),
      s.skippedItems = s.outcomes.filterMap skipLine →
      (runLoop pairs s).skippedItems = (runLoop pairs s).outcomes.filterMap skipLine
  | [], s, h => h
  | (t, e) :: rest, s, h => by
    cases e with
    | barTimeout => exact h
    | fatal => exact h
    | normal en =>
      exact runLoop_skipInv rest (termBody t en (gotoEntry s))
        (termBody_skipInv t en (gotoEntry s) h)

/-- When every iteration is normal, the outcome list extends by exactly the
processed terms, in order. -/
lemma runLoop_terms :
    ∀ (pairs : List (List Char × TermEnv)) (s : RunState),
      (∀ p ∈ pairs, p.2.isNormal = true) →
      (runLoop pairs s).outcomes.map (·.term)
        = s.outcomes.map (·.term) ++ pairs.map (·.1)
  | [], s, _ => by simp [runLoop]
  | (t, e) :: rest, s, hall => by
    cases e with
    | barTimeout =>
      have h := hall (t, TermEnv.barTimeout) (List.mem_cons_self _ _)
      simp [TermEnv.isNormal] at h
    | fatal =>
      have h := hall (t, TermEnv.fatal) (List.mem_cons_self _ _)
      simp [TermEnv.isNormal] at h
    | normal en =>
      show (runLoop rest (termBody t en (gotoEntry s))).outcomes.map (·.term) = _
      rw [runLoop_terms rest _ (fun p hp => hall p (List.mem_cons_of_mem _ hp))]
      obtain ⟨st, h1, _, _⟩ := termBody_step t en (gotoEntry s)
      rw [h1]
      simp [gotoEntry, List.map_append]

/-- Every search is submitted from the entry page: each iteration reloads the
entry URL before interacting with the search bar. -/
lemma runLoop_searchedFrom_entry :
    ∀ (pairs : List (List Char × TermEnv)) (s : RunState),
      (∀ p ∈ s.searchedFrom, p = Page.entry) →
      ∀ p ∈ (runLoop pairs s).searchedFrom, p = Page.entry
  | [], _, h => h
  | (t, e) :: rest, s, h => by
    cases e with
    | barTimeout => exact h
    | fatal => exact h
    | normal en =>
      show ∀ p ∈ (runLoop rest (termBody t en (gotoEntry s))).searchedFrom, p = Page.entry
      refine runLoop_searchedFrom_entry rest _ ?_
      obtain ⟨_, _, _, h3⟩ := termBody_step t en (gotoEntry s)
      rw [h3]
      intro p hp
      rcases List.mem_append.mp hp with hp | hp
      · exact h p hp
      · simpa using List.mem_singleton.mp hp

/-- A fatal iteration ends the loop: everything after it is never reached,
so the collected records are exactly those of the prefix before it. -/
lemma runLoop_fatal_records :
    ∀ (pre : List (List Char × TermEnv)) (s : RunState) (t : List Char)
      (post : List (List Char × TermEnv)),
      (runLoop (pre ++ (t, TermEnv.fatal) :: post) s).records = (runLoop pre s).records
  | [], s, t, post => rfl
  | (t', e') :: pre', s, t, post => by
    cases e' with
    | barTimeout => rfl
    | fatal => rfl
    | normal en =>
      exact runLoop_fatal_records pre' (termBody t' en (gotoEntry s)) t post

lemma foldl_roleStep_records (t : List Char) :
    ∀ (roles : List (List Char × Option TdElem)) (acc : Bool × RunState)
      (rec : ContactRecord),
      rec ∈ (roles.foldl (roleStep t) acc).2.records →
      rec ∈ acc.2.records ∨ rec.name ≠ NA
  | [], _, _, h => Or.inl h
  | role :: rest, acc, rec, h => by
    rw [List.foldl_cons] at h
    rcases foldl_roleStep_records t rest (roleStep t acc role) rec h with hmem | hname
    · cases hr : role.2 with
      | none =>
        simp only [roleStep, hr] at hmem
        exact Or.inl hmem
      | some td =>
        simp only [roleStep, hr] at hmem
        by_cases hn : (extract_contact_info td).1 ≠ NA
        · rw [if_pos hn] at hmem
          have hmem' : rec ∈ acc.2.records ++
              [⟨t, (extract_contact_info td).1, role.1,
                (extract_contact_info td).2.2, (extract_contact_info td).2.1⟩] := hmem
          rcases List.mem_append.mp hmem' with hmem'' | hmem''
          · exact Or.inl hmem''
          · obtain rfl := List.mem_singleton.mp hmem''
            exact Or.inr hn
        · rw [if_neg hn] at hmem
          exact Or.inl hmem
    · exact Or.inr hname

/-- Every record appended by the extraction phase has a non-sentinel name. -/
lemma extractPhase_records (t : List Char) (roles : List (List Char × Option TdElem))
    (s : RunState) (rec : ContactRecord) (h : rec ∈ (extractPhase t roles s).records) :
    rec ∈ s.records ∨ rec.name ≠ NA := by
  unfold extractPhase at h
  by_cases hb : (roles.foldl (roleStep t) (false, s)).1 = true
  · rw [if_pos hb] at h
    exact foldl_roleStep_records t roles (false, s) rec h
  · rw [if_neg hb] at h
    exact foldl_roleStep_records t roles (false, s) rec h

/-- Every record appended by the results branch has a non-sentinel name. -/
lemma resultsPhase_records (t cleaned : List Char)
    (roles : List (List Char × Option TdElem)) (results : Option (List Candidate))
    (s : RunState) (rec : ContactRecord)
    (h : rec ∈ (resultsPhase t cleaned roles results s).records) :
    rec ∈ s.records ∨ rec.name ≠ NA := by
  cases results with
  | none =>
    simp only [resultsPhase, recordSkip] at h
    exact Or.inl h
  | some links =>
    cases hfind : find_link_sas cleaned links with
    | none =>
      simp only [resultsPhase, hfind, recordSkip] at h
      exact Or.inl h
    | some c =>
      simp only [resultsPhase, hfind] at h
      exact extractPhase_records t roles s rec h

/-- Every record appended during an iteration has a non-sentinel name. -/
lemma termBody_records (t : List Char) (e : TermEnvNormal) (s : RunState)
    (rec : ContactRecord) (h : rec ∈ (termBody t e s).records) :
    rec ∈ s.records ∨ rec.name ≠ NA := by
  unfold termBody at h
  by_cases hl : landedCheck (clean_search_term t) e.detailTitle = true
  · rw [if_pos hl] at h
    have h' := extractPhase_records t e.roles
      { s with searchedFrom := s.searchedFrom ++ [s.page], page := .searched } rec h
    exact h'
  · rw [if_neg hl] at h
    have h' := resultsPhase_records t (clean_search_term t) e.roles e.results
      { s with searchedFrom := s.searchedFrom ++ [s.page], page := .searched } rec h
    exact h'

lemma runLoop_records_name :
    ∀ (pairs : List (List Char × TermEnv)) (s : RunState),
      (∀ rec ∈ s.records, rec.name ≠ NA) →
      ∀ rec ∈ (runLoop pairs s).records, rec.name ≠ NA
  | [], _, h => h
  | (t, e) :: rest, s, h => by
    cases e with
    | barTimeout => exact h
    | fatal => exact h
    | normal en =>
      refine runLoop_records_name rest _ ?_
      intro rec hmem
      rcases termBody_records t en (gotoEntry s) rec hmem with hmem' | hname
      · exact h rec hmem'
      · exact hname

lemma filterMap_skipLine_length :
    ∀ os : List Outcome, (os.filterMap skipLine).length = (os.filter (·.isSkipped)).length
  | [] => rfl
  | o :: os => by
    cases hst : o.status <;>
      simp [skipLine, hst, Outcome.isSkipped, filterMap_skipLine_length os]

/-! ## C1 -/

/-- C1 (counterexample): when a mid-batch failure ends the loop early, the
remaining terms receive no outcome at all: with terms `["A", "B"]` and a
search-bar timeout on the first iteration, zero outcomes are recorded for
two unique terms. -/
theorem C1_outcomes_cex :
    (runLoop ([['A'], ['B']].zip
        [TermEnv.barTimeout, TermEnv.normal ⟨none, none, []⟩]) initState).outcomes.length
      ≠ ([['A'], ['B']] : List (List Char)).length := by
  decide

/-- C1 (amended): in a run in which every iteration completes normally (no
search-bar-load failure and no unexpected exception), each unique input term
yields exactly one outcome: the outcome list lists exactly the input terms in
order, so its length equals the number of terms.  When a mid-batch failure
ends the loop early, terms from the failing iteration onward receive no
outcome. -/
theorem C1_outcomes_amended (terms : List (List Char)) (envs : List TermEnv)
    (hlen : terms.length ≤ envs.length)
    (hall : ∀ e ∈ envs, e.isNormal = true) :
    (runLoop (terms.zip envs) initState).outcomes.map (·.term) = terms
    ∧ (runLoop (terms.zip envs) initState).outcomes.length = terms.length := by
  have hall' : ∀ p ∈ terms.zip envs, p.2.isNormal = true := by
    rintro ⟨a, b⟩ hp
    exact hall b (List.of_mem_zip hp).2
  have h := runLoop_terms (terms.zip envs) initState hall'
  simp only [show initState.outcomes = [] from rfl, List.map_nil,
    List.nil_append] at h
  have hfst : (terms.zip envs).map (·.1) = terms :=
    List.map_fst_zip terms envs hlen
  refine ⟨h.trans hfst, ?_⟩
  have hlen2 := congrArg List.length (h.trans hfst)
  simpa using hlen2

/-- C1 amended witness: a one-term normal run records exactly that term's
outcome. -/
theorem C1_outcomes_amended_witness :
    (runLoop ([['A']].zip [TermEnv.normal ⟨none, none, []⟩]) initState).outcomes.map (·.term)
      = [['A']]
    ∧ (runLoop ([['A']].zip [TermEnv.normal ⟨none, none, []⟩]) initState).outcomes.length
      = ([['A']] : List (List Char)).length :=
  C1_outcomes_amended [['A']] [TermEnv.normal ⟨none, none, []⟩] (by decide) (by decide)

/-! ## Matcher characterisation lemmas -/

/-- Whatever `find_link_cde` returns is a displayed candidate containing the
term, and everything rendered before it fails that test. -/
lemma find_link_cde_first (term : List Char) :
    ∀ ls c, find_link_cde term ls = some c →
      c.displayed = true ∧ containsCI term c.text = true ∧
      ∃ l1 l2, ls = l1 ++ c :: l2 ∧
        ∀ x ∈ l1, (x.displayed && containsCI term x.text) = false := by
  intro ls
  induction ls with
  | nil => intro c h; simp [find_link_cde] at h
  | cons l rest ih =>
    intro c h
    by_cases hl : (l.displayed && containsCI term l.text) = true
    · rw [find_link_cde, if_pos hl] at h
      obtain rfl : l = c := by injection h
      rw [Bool.and_eq_true] at hl
      exact ⟨hl.1, hl.2, [], rest, rfl, by simp⟩
    · rw [find_link_cde, if_neg hl] at h
      obtain ⟨hd, hc, l1, l2, rfl, hall⟩ := ih c h
      refine ⟨hd, hc, l :: l1, l2, rfl, ?_⟩
      intro x hx
      rcases List.mem_cons.mp hx with rfl | hx
      · exact Bool.not_eq_true _ ▸ (by simpa using hl)
      · exact hall x hx

/-- Whatever `find_link_sas` returns contains the term, and everything
rendered before it does not; visibility plays no role. -/
lemma find_link_sas_first (term : List Char) :
    ∀ ls c, find_link_sas term ls = some c →
      containsCI term c.text = true ∧
      ∃ l1 l2, ls = l1 ++ c :: l2 ∧ ∀ x ∈ l1, containsCI term x.text = false := by
  intro ls
  induction ls with
  | nil => intro c h; simp [find_link_sas] at h
  | cons l rest ih =>
    intro c h
    by_cases hl : containsCI term l.text = true
    · rw [find_link_sas, if_pos hl] at h
      obtain rfl : l = c := by injection h
      exact ⟨hl, [], rest, rfl, by simp⟩
    · rw [find_link_sas, if_neg hl] at h
      obtain ⟨hc, l1, l2, rfl, hall⟩ := ih c h
      refine ⟨hc, l :: l1, l2, rfl, ?_⟩
      intro x hx
      rcases List.mem_cons.mp hx with rfl | hx
      · simpa using hl
      · exact hall x hx

/-! ## C3 -/

/-- C3 (counterexample): the matcher of school-admin-scraper.py performs no
visibility check.  With candidates `["Alameda Unified"]` (not displayed) and
`["East Alameda"]` (displayed) and term `"alameda"`, it selects the first,
non-displayed candidate rather than the first visible match. -/
theorem C3_matcher_cex :
    find_link_sas "alameda".data
        [⟨"Alameda Unified".data, false⟩, ⟨"East Alameda".data, true⟩]
      = some ⟨"Alameda Unified".data, false⟩
    ∧ (⟨"Alameda Unified".data, false⟩ : Candidate).displayed = false
    ∧ find_link_sas "alameda".data
        [⟨"Alameda Unified".data, false⟩, ⟨"East Alameda".data, true⟩]
      ≠ some ⟨"East Alameda".data, true⟩ := by
  decide

/-- C3 (amended): contactScraper.py selects the first candidate, in render
order, that is visible and whose displayed text contains the term as a
case-insensitive substring; school-admin-scraper.py selects the first
candidate whose text contains the term, regardless of visibility.  For
candidates `["Alameda Unified", "East Alameda"]` (both displayed) and term
`"alameda"`, both matchers choose the first. -/
theorem C3_matcher_amended :
    (∀ term ls c, find_link_cde term ls = some c →
      c.displayed = true ∧ containsCI term c.text = true ∧
      ∃ l1 l2, ls = l1 ++ c :: l2 ∧
        ∀ x ∈ l1, (x.displayed && containsCI term x.text) = false)
    ∧ (∀ term ls c, find_link_sas term ls = some c →
      containsCI term c.text = true ∧
      ∃ l1 l2, ls = l1 ++ c :: l2 ∧ ∀ x ∈ l1, containsCI term x.text = false)
    ∧ find_link_sas "alameda".data
        [⟨"Alameda Unified".data, true⟩, ⟨"East Alameda".data, true⟩]
      = some ⟨"Alameda Unified".data, true⟩
    ∧ find_link_cde "alameda".data
        [⟨"Alameda Unified".data, true⟩, ⟨"East Alameda".data, true⟩]
      = some ⟨"Alameda Unified".data, true⟩ :=
  ⟨fun term ls c h => find_link_cde_first term ls c h,
   fun term ls c h => find_link_sas_first term ls c h,
   by decide, by decide⟩

/-- C3 amended witness: the characterisations applied to the concrete
Alameda candidate list. -/
theorem C3_matcher_amended_witness :
    (Candidate.mk "Alameda Unified".data true).displayed = true
    ∧ containsCI "alameda".data "Alameda Unified".data = true := by
  have h := C3_matcher_amended.1 "alameda".data
    [⟨"Alameda Unified".data, true⟩, ⟨"East Alameda".data, true⟩]
    ⟨"Alameda Unified".data, true⟩ (by decide)
  exact ⟨h.1, h.2.1⟩

/-! ## C4 -/

/-- C4: `extract_contact_info` never raises on a missing sub-field: a
missing phone pattern yields `"N/A"`, a missing `mailto:` link yields
`"N/A"`, and the name — the first non-empty stripped line of the block's
text — is still returned when present.  (In this embedding the function is
total, reflecting that the source catches `NoSuchElementException` for the
e-mail query and uses fallbacks elsewhere.) -/
theorem C4_extract_missing_subfields (td : TdElem) :
    (phoneSearch (pyStrip td.text) = none → (extract_contact_info td).2.1 = NA)
    ∧ (td.mailtoHref = none → (extract_contact_info td).2.2 = NA)
    ∧ (∀ l ls, ((splitLines (pyStrip td.text)).map pyStrip).filter (· ≠ []) = l :: ls →
        (extract_contact_info td).1 = l) := by
  refine ⟨fun h => ?_, fun h => ?_, fun l ls h => ?_⟩
  · simp [extract_contact_info, h]
  · simp [extract_contact_info, h]
  · have h' : List.filter (fun x => !decide (x = []))
        (List.map pyStrip (splitLines (pyStrip td.text))) = l :: ls := by
      simpa using h
    simp [extract_contact_info, h']

/-- C4 witness: a block with a name line but no phone pattern and no
`mailto:` link. -/
theorem C4_extract_missing_subfields_witness :
    (extract_contact_info ⟨"Jane Doe".data, none⟩).2.1 = NA
    ∧ (extract_contact_info ⟨"Jane Doe".data, none⟩).2.2 = NA
    ∧ (extract_contact_info ⟨"Jane Doe".data, none⟩).1 = "Jane Doe".data :=
  ⟨(C4_extract_missing_subfields _).1 (by decide),
   (C4_extract_missing_subfields _).2.1 rfl,
   (C4_extract_missing_subfields _).2.2 "Jane Doe".data [] (by decide)⟩

/-! ## C5 -/

/-- C5 (counterexample): the skip reason the source records for a results
timeout is `"No search results"` with a capital N, so the skip-report line
for term `"T"` is `"T (No search results)"` and not the claimed
`"T (no search results)"`. -/
theorem C5_timeout_cex :
    (runLoop [(['T'], TermEnv.normal ⟨none, none, []⟩)] initState).skippedItems
      = ["T (No search results)".data]
    ∧ "T (no search results)".data ∉
        (runLoop [(['T'], TermEnv.normal ⟨none, none, []⟩)] initState).skippedItems := by
  decide

/-- C5 (amended): a term whose search results do not render within the
bounded timeout (and that did not land directly on a matching detail page)
is recorded as Skipped with reason `"No search results"`; its line
`"<original term> (No search results)"` appears in the skip report, and
every search — in particular the next term's — is submitted from the entry
page, which each iteration reloads first. -/
theorem C5_timeout_amended :
    (∀ t dt roles s, landedCheck (clean_search_term t) dt = false →
      (termBody t ⟨dt, none, roles⟩ s).outcomes
          = s.outcomes ++ [⟨t, .skipped .noSearchResults⟩]
      ∧ (termBody t ⟨dt, none, roles⟩ s).skippedItems
          = s.skippedItems ++ [fmtSkip t .noSearchResults])
    ∧ (∀ df pairs line, line ∈ (runLoop pairs initState).skippedItems →
        ∃ ls, (runFullPairs df pairs).report = some ls ∧ line ∈ ls)
    ∧ (∀ pairs, ∀ p ∈ (runLoop pairs initState).searchedFrom, p = Page.entry) := by
  refine ⟨?_, ?_, ?_⟩
  · intro t dt roles s hl
    unfold termBody
    rw [if_neg (by simp [hl])]
    constructor <;> simp [resultsPhase, recordSkip]
  · intro df pairs line hline
    have hne : (runLoop pairs initState).skippedItems ≠ [] :=
      List.ne_nil_of_mem hline
    exact ⟨(runLoop pairs initState).skippedItems,
      by simp [runFullPairs, hne], hline⟩
  · intro pairs
    exact runLoop_searchedFrom_entry pairs initState (by simp [initState])

/-- C5 amended witness: a concrete timed-out term, its outcome, its report
line, and the report containing it. -/
theorem C5_timeout_amended_witness :
    ((termBody ['T'] ⟨none, none, []⟩ initState).outcomes
        = initState.outcomes ++ [⟨['T'], .skipped .noSearchResults⟩]
      ∧ (termBody ['T'] ⟨none, none, []⟩ initState).skippedItems
        = initState.skippedItems ++ [fmtSkip ['T'] .noSearchResults])
    ∧ ∃ ls, (runFullPairs [] [(['T'], TermEnv.normal ⟨none, none, []⟩)]).report = some ls
        ∧ fmtSkip ['T'] .noSearchResults ∈ ls :=
  ⟨C5_timeout_amended.1 ['T'] none [] initState (by decide),
   C5_timeout_amended.2.1 [] [(['T'], TermEnv.normal ⟨none, none, []⟩)]
     (fmtSkip ['T'] .noSearchResults) (by decide)⟩

/-! ## C6 -/

/-- C6: a fatal failure mid-batch ends the loop, but every ContactRecord
collected before the failure is still merged onto the dataset and written,
and the browser session is released by the `finally` block. -/
theorem C6_fatal_persist (df : List InputRow)
    (pre post : List (List Char × TermEnv)) (t : List Char) :
    (runLoop (pre ++ (t, TermEnv.fatal) :: post) initState).records
        = (runLoop pre initState).records
    ∧ ((runLoop pre initState).records ≠ [] →
        (runFullPairs df (pre ++ (t, TermEnv.fatal) :: post)).written
          = some (mergeLeft df ((runLoop pre initState).records)))
    ∧ (runFullPairs df (pre ++ (t, TermEnv.fatal) :: post)).driverQuit = true := by
  have hrec := runLoop_fatal_records pre initState t post
  refine ⟨hrec, ?_, rfl⟩
  intro hne
  simp [runFullPairs, hrec, hne]

/-- C6 witness: one successful term, then a fatal iteration; the record from
the first term is written. -/
theorem C6_fatal_persist_witness :
    (runFullPairs []
        ([(['A'], TermEnv.normal ⟨some ['a'], none, [(['S'], some ⟨['J'], none⟩)]⟩)]
          ++ (['B'], TermEnv.fatal) :: [])).written
      = some (mergeLeft []
          ((runLoop [(['A'], TermEnv.normal ⟨some ['a'], none,
              [(['S'], some ⟨['J'], none⟩)]⟩)] initState).records)) :=
  (C6_fatal_persist [] _ [] ['B']).2.1 (by decide)

/-! ## C7 -/

/-- C7: the merge is a left join on the key column: the output has at least
as many rows as the input, and every original row appears with its
passthrough columns intact — with all four output columns blank when no
scraped record matches its key. -/
theorem C7_merge_left_join (df : List InputRow) (recs : List ContactRecord) :
    df.length ≤ (mergeLeft df recs).length
    ∧ ∀ r ∈ df, ∃ out ∈ mergeLeft df recs,
        out.key = r.key ∧ out.rest = r.rest
        ∧ (matchesFor recs r.key = [] →
            out = ⟨r.key, r.rest, none, none, none, none⟩) := by
  induction df with
  | nil => exact ⟨Nat.le_refl 0, by simp⟩
  | cons row df ih =>
    cases hm : matchesFor recs row.key with
    | nil =>
      have hsplit : mergeLeft (row :: df) recs
          = [⟨row.key, row.rest, none, none, none, none⟩] ++ mergeLeft df recs := by
        simp [mergeLeft, hm]
      constructor
      · rw [hsplit]
        have h1 := ih.1
        simp only [List.length_append, List.length_cons, List.length_nil]
        omega
      · intro r hr
        rcases List.mem_cons.mp hr with rfl | hr
        · refine ⟨⟨r.key, r.rest, none, none, none, none⟩, ?_, rfl, rfl, fun _ => rfl⟩
          rw [hsplit]
          exact List.mem_append_left _ (by simp)
        · obtain ⟨out, hout, hp⟩ := ih.2 r hr
          exact ⟨out, by rw [hsplit]; exact List.mem_append_right _ hout, hp⟩
    | cons m ms =>
      have hsplit : mergeLeft (row :: df) recs
          = ((m :: ms).map fun r =>
              ⟨row.key, row.rest, some r.name, some r.jobTitle, some r.email, some r.phone⟩)
            ++ mergeLeft df recs := by
        simp [mergeLeft, hm]
      constructor
      · rw [hsplit]
        have h1 := ih.1
        simp only [List.length_append, List.length_map, List.length_cons]
        omega
      · intro r hr
        rcases List.mem_cons.mp hr with rfl | hr
        · refine ⟨⟨r.key, r.rest, some m.name, some m.jobTitle, some m.email, some m.phone⟩,
            ?_, rfl, rfl, fun hcon => absurd (hm ▸ hcon) (by simp)⟩
          rw [hsplit]
          exact List.mem_append_left _ (by simp)
        · obtain ⟨out, hout, hp⟩ := ih.2 r hr
          exact ⟨out, by rw [hsplit]; exact List.mem_append_right _ hout, hp⟩

/-- C7 witness: a two-row dataset, one matched key and one unmatched key. -/
theorem C7_merge_left_join_witness :
    (([⟨['A'], [['x']]⟩, ⟨['B'], [['y']]⟩] : List InputRow).length
      ≤ (mergeLeft [⟨['A'], [['x']]⟩, ⟨['B'], [['y']]⟩]
          [⟨['A'], ['J'], ['S'], NA, NA⟩]).length)
    ∧ ∃ out ∈ mergeLeft [⟨['A'], [['x']]⟩, ⟨['B'], [['y']]⟩]
          [⟨['A'], ['J'], ['S'], NA, NA⟩],
        out.key = (['B'] : List Char) ∧ out.rest = [['y']]
        ∧ (matchesFor [⟨['A'], ['J'], ['S'], NA, NA⟩] ['B'] = [] →
            out = ⟨['B'], [['y']], none, none, none, none⟩) :=
  ⟨(C7_merge_left_join _ _).1,
   (C7_merge_left_join [⟨['A'], [['x']]⟩, ⟨['B'], [['y']]⟩]
      [⟨['A'], ['J'], ['S'], NA, NA⟩]).2 ⟨['B'], [['y']]⟩ (by decide)⟩

/-! ## C8 -/

/-- C8: the sidecar skip report is written exactly when at least one term
was skipped; it then contains one line per Skipped outcome (its length
equals the number of Skipped outcomes), and each line is
`"<original term> (<reason>)"` for that outcome's term and reason. -/
theorem C8_skip_report (df : List InputRow) (pairs : List (List Char × TermEnv)) :
    ((runFullPairs df pairs).report = none ↔
      (runLoop pairs initState).skippedItems = [])
    ∧ (∀ ls, (runFullPairs df pairs).report = some ls →
        ls.length = ((runLoop pairs initState).outcomes.filter (·.isSkipped)).length
        ∧ ∀ line ∈ ls, ∃ o ∈ (runLoop pairs initState).outcomes,
            ∃ r, o.status = .skipped r ∧ line = fmtSkip o.term r) := by
  have hinv := runLoop_skipInv pairs initState (by simp [initState])
  constructor
  · constructor
    · intro h
      by_contra hne
      simp [runFullPairs, hne] at h
    · intro h
      simp [runFullPairs, h]
  · intro ls hls
    have hlse : ls = (runLoop pairs initState).skippedItems := by
      by_cases hne : (runLoop pairs initState).skippedItems = []
      · simp [runFullPairs, hne] at hls
      · simp only [runFullPairs, if_neg hne] at hls
        exact (Option.some.injEq _ _ ▸ hls).symm
    constructor
    · rw [hlse, hinv]
      exact filterMap_skipLine_length _
    · intro line hline
      rw [hlse, hinv] at hline
      obtain ⟨o, ho, hso⟩ := List.mem_filterMap.mp hline
      cases hst : o.status with
      | processed => simp [skipLine, hst] at hso
      | skipped r =>
        refine ⟨o, ho, r, hst, ?_⟩
        simp only [skipLine, hst] at hso
        exact (Option.some.injEq _ _ ▸ hso).symm

/-- C8 witness: a run with one skipped term has a one-line report whose line
count matches its single Skipped outcome. -/
theorem C8_skip_report_witness :
    ("T (No search results)".data : List Char).length
        = (((runLoop [(['T'], TermEnv.normal ⟨none, none, []⟩)] initState).outcomes.filter
            (·.isSkipped)).length)
      ∨ (["T (No search results)".data] : List (List Char)).length
        = ((runLoop [(['T'], TermEnv.normal ⟨none, none, []⟩)] initState).outcomes.filter
            (·.isSkipped)).length :=
  Or.inr ((C8_skip_report [] [(['T'], TermEnv.normal ⟨none, none, []⟩)]).2
    ["T (No search results)".data] (by decide)).1

/-! ## C9 -/

/-- C9: a run that produces no ContactRecords performs no write to the input
dataset file. -/
theorem C9_no_records_no_write (df : List InputRow)
    (pairs : List (List Char × TermEnv))
    (h : (runLoop pairs initState).records = []) :
    (runFullPairs df pairs).written = none := by
  simp [runFullPairs, h]

/-- C9 witness: a run whose only term is skipped writes nothing. -/
theorem C9_no_records_no_write_witness :
    (runFullPairs [] [(['T'], TermEnv.normal ⟨none, none, []⟩)]).written = none :=
  C9_no_records_no_write [] _ (by decide)

/-! ## C10 -/

/-- C10: a record is appended only under the `name != "N/A"` guard, so every
persisted ContactRecord has a non-sentinel name — while its phone and email
may both still be `"N/A"`, as the exhibited run shows. -/
theorem C10_records_have_names :
    (∀ (pairs : List (List Char × TermEnv)) (rec : ContactRecord),
        rec ∈ (runLoop pairs initState).records → rec.name ≠ NA)
    ∧ (∃ rec ∈ (runLoop [(['A'], TermEnv.normal ⟨some ['a'], none,
          [(['S'], some ⟨['J'], none⟩)]⟩)] initState).records,
        rec.name ≠ NA ∧ rec.phone = NA ∧ rec.email = NA) := by
  constructor
  · intro pairs rec h
    exact runLoop_records_name pairs initState (by simp [initState]) rec h
  · decide

/-- C10 witness: the general part applied to a concrete run and record. -/
theorem C10_records_have_names_witness :
    (['J'] : List Char) ≠ NA :=
  C10_records_have_names.1
    [(['A'], TermEnv.normal ⟨some ['a'], none, [(['S'], some ⟨['J'], none⟩)]⟩)]
    ⟨['A'], ['J'], ['S'], NA, NA⟩ (by decide)

end Scraper
